import Mathlib

/-!
# Verification of the assignment-expression evaluation core

Shallow embedding of `src/src/runtime-semantics/AssignmentExpression.mjs`:
the assignment pattern refiner (`refineLeftHandSideExpression`) and the
assignment operator evaluator (`Evaluate_AssignmentExpression`), together
with theorems checking the natural-language specification against them.

External collaborators (the expression evaluator, GetValue, PutValue,
ToBoolean, NamedEvaluation, ApplyStringOrNumericBinaryOperator,
DestructuringAssignmentEvaluation, the static-semantics predicates) are not
part of the source module; they are modelled as an abstract `Host` of
state-transforming operations, and each collaborator invocation performed by
the evaluator is recorded in an event trace so that ordering and
side-effect claims can be stated.
-/

namespace Engine262

/-- ECMAScript language values, as far as this module inspects them: the
evaluator compares values against `undefined` and `null` and otherwise
treats them opaquely.  Booleans are kept concrete because `ToBoolean`
results are compared against `true`/`false`; all other values are opaque
handles. -/
inductive JSValue where
  | undefinedV : JSValue
  | nullV : JSValue
  | boolV (b : Bool) : JSValue
  | numV (n : Int) : JSValue
  | strV (s : String) : JSValue
  | objV (id : Nat) : JSValue
deriving DecidableEq, Repr

/-- The kind tag of an abrupt completion record. -/
inductive AbruptKind where
  | throwC | returnC | breakC | continueC
deriving DecidableEq, Repr

/-- An abrupt completion record: kind, value and optional target label. -/
structure Abrupt where
  kind : AbruptKind
  value : JSValue
  target : Option String
deriving DecidableEq, Repr

/-- A completion record: normal with a value of type `α`, or abrupt. -/
inductive Completion (α : Type) where
  | normal (v : α) : Completion α
  | abrupt (a : Abrupt) : Completion α
deriving DecidableEq, Repr

/-- References are opaque handles produced by evaluating an expression in
target position; their structure is owned by the surrounding runtime. -/
abbrev Ref := Nat

/-- What a JavaScript variable in this module may hold at runtime: a plain
language value, or (because the module omits an unwrap at one call site) a
first-class abrupt completion record. -/
abbrev Dyn := Completion JSValue

/-- AST nodes, restricted to the shapes this module discriminates on.
`Elision` is modelled from the spec: an array-literal element list may
contain absent elements (holes); the parser producing them is not part of
this module.  `Other` stands for every further node shape (member
expressions, calls, literals, ...), opaque to this module. -/
inductive Node where
  | ArrayLiteral (ElementList : List Node) : Node
  | ObjectLiteral (PropertyDefinitionList : List Node) : Node
  | PropertyDefinition (PropertyName : Option Node) (AssignmentExpression : Option Node) : Node
  | IdentifierReference (name : String) : Node
  | CoverInitializedName (IdentifierReference : Node) (Initializer : Node) : Node
  | AssignmentExpressionN (LeftHandSideExpression : Node) (AssignmentOperator : String)
      (AssignmentExpression : Node) : Node
  | Elision : Node
  | Other (tag : String) (id : Nat) : Node
deriving Repr

/-- The `type` string of a node, as read by the JavaScript `switch`. -/
def Node.typeName : Node → String
  | .ArrayLiteral _ => "ArrayLiteral"
  | .ObjectLiteral _ => "ObjectLiteral"
  | .PropertyDefinition _ _ => "PropertyDefinition"
  | .IdentifierReference _ => "IdentifierReference"
  | .CoverInitializedName _ _ => "CoverInitializedName"
  | .AssignmentExpressionN _ _ _ => "AssignmentExpression"
  | .Elision => "Elision"
  | .Other tag _ => tag

def Node.isObjectLiteral : Node → Bool
  | .ObjectLiteral _ => true
  | _ => false

def Node.isArrayLiteral : Node → Bool
  | .ArrayLiteral _ => true
  | _ => false

/-- The refined assignment-pattern tree produced by
`refineLeftHandSideExpression`.  Constructors mirror the JavaScript record
shapes, field for field; `AssignmentProperty` records occur in two field
shapes in the source (keyed, and shorthand identifier), modelled as two
constructors.  `AssignmentElement` carries the two optional fields the
source writes on such records: `Initializer`, and the (differently named)
`AssignmentExpression` field written at one construction site. -/
inductive Refined where
  | ArrayAssignmentPattern (AssignmentElementList : List Refined) : Refined
  | ObjectAssignmentPattern (AssignmentPropertyList : List Refined)
      (AssignmentRestProperty : Option Refined) : Refined
  | AssignmentRestProperty (DestructuringAssignmentTarget : Node) : Refined
  | AssignmentPropertyKeyed (PropertyName : Option Node) (AssignmentElement : Refined) : Refined
  | AssignmentPropertyIdRef (IdentifierReference : Node) (Initializer : Option Node) : Refined
  | AssignmentElement (DestructuringAssignmentTarget : Node) (Initializer : Option Node)
      (AssignmentExpression : Option Node) : Refined
deriving Repr

mutual

/-- Embedding of `refineLeftHandSideExpression` (src lines 22-83): converts
a cover-grammar literal into an assignment pattern.  The JavaScript
`throw new OutOfRange(...)` on the default case is modelled as
`Except.error`; a field access on a missing property value (host
`TypeError`) likewise. -/
def refineLeftHandSideExpression : Node → Except String Refined
  | .ArrayLiteral elementList => do
      let elems ← refineElementList elementList
      pure (.ArrayAssignmentPattern elems)
  | .ObjectLiteral propertyDefinitionList => do
      let (props, rest) ← refinePropertyList propertyDefinitionList [] none
      pure (.ObjectAssignmentPattern props rest)
  | .PropertyDefinition propertyName assignmentExpression =>
      match assignmentExpression with
      | some (.AssignmentExpressionN l _op r) =>
          pure (.AssignmentPropertyKeyed propertyName
            (.AssignmentElement l none (some r)))
      | some n =>
          pure (.AssignmentPropertyKeyed propertyName
            (.AssignmentElement n none none))
      | none => throw "TypeError: cannot read type of undefined"
  | .IdentifierReference name =>
      pure (.AssignmentPropertyIdRef (.IdentifierReference name) none)
  | .CoverInitializedName identifierReference initializer =>
      pure (.AssignmentPropertyIdRef identifierReference (some initializer))
  | .AssignmentExpressionN l _op r =>
      pure (.AssignmentElement l (some r) none)
  | n => throw ("OutOfRange: refineLeftHandSideExpression " ++ n.typeName)

/-- The `node.ElementList.map(refineLeftHandSideExpression)` call: each
element recurses through the refiner, left to right, aborting at the first
host exception. -/
def refineElementList : List Node → Except String (List Refined)
  | [] => pure []
  | n :: rest => do
      let r ← refineLeftHandSideExpression n
      let rs ← refineElementList rest
      pure (r :: rs)

/-- The `node.PropertyDefinitionList.forEach(...)` loop, single pass over
the property definitions with the two mutable slots of the source as
accumulators: a property with a `null` name and a present assignment
expression overwrites the rest slot (last one wins, as in the source);
every other property recurses through the refiner and is appended to the
property list. -/
def refinePropertyList : List Node → List Refined → Option Refined →
    Except String (List Refined × Option Refined)
  | [], props, rest => pure (props, rest)
  | p :: ps, props, rest =>
      match p with
      | .PropertyDefinition none (some ae) =>
          refinePropertyList ps props (some (.AssignmentRestProperty ae))
      | _ => do
          let r ← refineLeftHandSideExpression p
          refinePropertyList ps (props ++ [r]) rest

end

/-- The token-to-base-operator table of the compound branch (src lines
196-209): a JavaScript object-literal lookup, yielding the base operator
text for the twelve compound tokens and `undefined` (`none`) for every
other key. -/
def opTextMap : String → Option String
  | "**=" => some "**"
  | "*=" => some "*"
  | "/=" => some "/"
  | "%=" => some "%"
  | "+=" => some "+"
  | "-=" => some "-"
  | "<<=" => some "<<"
  | ">>=" => some ">>"
  | ">>>=" => some ">>>"
  | "&=" => some "&"
  | "^=" => some "^"
  | "|=" => some "|"
  | _ => none

/-- The collaborator operations the evaluator delegates to, as abstract
state-transforming functions over a host state `σ` (spec section 6).
`putValue` receives a `Dyn` payload because the source hands it, at one
call site, a result that was never unwrapped. -/
structure Host (σ : Type) where
  evaluate : Node → σ → Completion Ref × σ
  getValue : Ref → σ → Completion JSValue × σ
  putValue : Ref → Dyn → σ → Completion Unit × σ
  toBoolean : JSValue → Bool
  getReferencedName : Ref → String
  namedEvaluation : Node → String → σ → Completion JSValue × σ
  applyOp : JSValue → Option String → JSValue → σ → Completion JSValue × σ
  destructuring : Refined → JSValue → σ → Completion JSValue × σ
  isAnonymousFunctionDefinition : Node → Bool
  isIdentifierRef : Node → Bool

/-- One collaborator invocation performed by the evaluator, with the
arguments passed and the result received.  `evalL`/`evalR` distinguish the
two call sites of the expression evaluator (target position vs source
position). -/
inductive Event where
  | evalL (n : Node) (res : Completion Ref) : Event
  | evalR (n : Node) (res : Completion Ref) : Event
  | getV (arg : Completion Ref) (res : Completion JSValue) : Event
  | putV (r : Ref) (w : Dyn) (res : Completion Unit) : Event
  | namedEvalR (n : Node) (name : String) (res : Completion JSValue) : Event
  | applyB (l : JSValue) (op : Option String) (r : JSValue) (res : Completion JSValue) : Event
  | destructA (p : Refined) (w : JSValue) (res : Completion JSValue) : Event
deriving Repr

/-- Modelled from the spec: `GetValue` (the dereference collaborator, not
part of this module) first propagates an abrupt argument (ReturnIfAbrupt)
and otherwise dereferences through the host.  Always records the
invocation. -/
def GetValueStep (h : Host σ) (arg : Completion Ref) (s : σ) :
    Completion JSValue × σ × List Event :=
  match arg with
  | .abrupt a => (.abrupt a, s, [.getV arg (.abrupt a)])
  | .normal r =>
      let (res, s') := h.getValue r s
      (res, s', [.getV arg res])

/-- The shared tail of the three logical-assignment branches (src lines
140-147, 159-166 and 176-183, textually identical): evaluate the source,
dereference, store through the target reference, return the stored
value. -/
def logicalSetTail (h : Host σ) (lr : Ref) (rhsE : Node) (s : σ) :
    Completion JSValue × σ × List Event :=
  let (in1, s1) := h.evaluate rhsE s
  let (in2, s2, tg) := GetValueStep h in1 s1
  let tr0 := Event.evalR rhsE in1 :: tg
  match in2 with
  | .abrupt a => (.abrupt a, s2, tr0)
  | .normal rval =>
      let (pres, s3) := h.putValue lr (.normal rval) s2
      let tr := tr0 ++ [Event.putV lr (.normal rval) pres]
      match pres with
      | .abrupt a => (.abrupt a, s3, tr)
      | .normal _ => (.normal rval, s3, tr)

/-- The `=` branch (src lines 96-128): the non-destructuring sub-branch
with the anonymous-function naming rule, and the destructuring sub-branch
refining the target and delegating to the destructuring evaluator.
`Except.error` models the host exception thrown by the refiner on an input
outside its grammar. -/
def evalSimpleAssign (h : Host σ) (lhsE rhsE : Node) (s : σ) :
    Except String (Completion JSValue) × σ × List Event :=
  if lhsE.isObjectLiteral = false ∧ lhsE.isArrayLiteral = false then
    let (lref, s1) := h.evaluate lhsE s
    match lref with
    | .abrupt a => (.ok (.abrupt a), s1, [.evalL lhsE (.abrupt a)])
    | .normal lr =>
        if h.isAnonymousFunctionDefinition rhsE = true ∧ h.isIdentifierRef lhsE = true then
          let name := h.getReferencedName lr
          let (rval, s2) := h.namedEvaluation rhsE name s1
          let (pres, s3) := h.putValue lr rval s2
          let tr := [Event.evalL lhsE (.normal lr), Event.namedEvalR rhsE name rval,
            Event.putV lr rval pres]
          match pres with
          | .abrupt a => (.ok (.abrupt a), s3, tr)
          | .normal _ => (.ok rval, s3, tr)
        else
          let (rref, s2) := h.evaluate rhsE s1
          let (rv, s3, tg) := GetValueStep h rref s2
          let tr0 := Event.evalL lhsE (.normal lr) :: Event.evalR rhsE rref :: tg
          match rv with
          | .abrupt a => (.ok (.abrupt a), s3, tr0)
          | .normal rval =>
              let (pres, s4) := h.putValue lr (.normal rval) s3
              let tr := tr0 ++ [Event.putV lr (.normal rval) pres]
              match pres with
              | .abrupt a => (.ok (.abrupt a), s4, tr)
              | .normal _ => (.ok (.normal rval), s4, tr)
  else
    match refineLeftHandSideExpression lhsE with
    | .error e => (.error e, s, [])
    | .ok pat =>
        let (rref, s1) := h.evaluate rhsE s
        let (rv, s2, tg) := GetValueStep h rref s1
        let tr0 := Event.evalR rhsE rref :: tg
        match rv with
        | .abrupt a => (.ok (.abrupt a), s2, tr0)
        | .normal rval =>
            let (dres, s3) := h.destructuring pat rval s2
            let tr := tr0 ++ [Event.destructA pat rval dres]
            match dres with
            | .abrupt a => (.ok (.abrupt a), s3, tr)
            | .normal _ => (.ok (.normal rval), s3, tr)

/-- The `&&=` branch (src lines 129-147): dereference the target; stop and
return the current value when `ToBoolean` gives `false`; otherwise run the
shared set tail. -/
def evalAndAssign (h : Host σ) (lhsE rhsE : Node) (s : σ) :
    Completion JSValue × σ × List Event :=
  let (lref, s1) := h.evaluate lhsE s
  match lref with
  | .abrupt a => (.abrupt a, s1, [.evalL lhsE (.abrupt a), .getV (.abrupt a) (.abrupt a)])
  | .normal lr =>
      let (lv, s2) := h.getValue lr s1
      let tr0 := [Event.evalL lhsE (.normal lr), Event.getV (.normal lr) lv]
      match lv with
      | .abrupt a => (.abrupt a, s2, tr0)
      | .normal lval =>
          if h.toBoolean lval = false then (.normal lval, s2, tr0)
          else
            let (res, s3, tl) := logicalSetTail h lr rhsE s2
            (res, s3, tr0 ++ tl)

/-- The `||=` branch (src lines 148-166): stop when `ToBoolean` gives
`true`. -/
def evalOrAssign (h : Host σ) (lhsE rhsE : Node) (s : σ) :
    Completion JSValue × σ × List Event :=
  let (lref, s1) := h.evaluate lhsE s
  match lref with
  | .abrupt a => (.abrupt a, s1, [.evalL lhsE (.abrupt a), .getV (.abrupt a) (.abrupt a)])
  | .normal lr =>
      let (lv, s2) := h.getValue lr s1
      let tr0 := [Event.evalL lhsE (.normal lr), Event.getV (.normal lr) lv]
      match lv with
      | .abrupt a => (.abrupt a, s2, tr0)
      | .normal lval =>
          if h.toBoolean lval = true then (.normal lval, s2, tr0)
          else
            let (res, s3, tl) := logicalSetTail h lr rhsE s2
            (res, s3, tr0 ++ tl)

/-- The `??=` branch (src lines 167-183): stop when the current value is
neither `undefined` nor `null`. -/
def evalNullishAssign (h : Host σ) (lhsE rhsE : Node) (s : σ) :
    Completion JSValue × σ × List Event :=
  let (lref, s1) := h.evaluate lhsE s
  match lref with
  | .abrupt a => (.abrupt a, s1, [.evalL lhsE (.abrupt a), .getV (.abrupt a) (.abrupt a)])
  | .normal lr =>
      let (lv, s2) := h.getValue lr s1
      let tr0 := [Event.evalL lhsE (.normal lr), Event.getV (.normal lr) lv]
      match lv with
      | .abrupt a => (.abrupt a, s2, tr0)
      | .normal lval =>
          if lval ≠ JSValue.undefinedV ∧ lval ≠ JSValue.nullV then (.normal lval, s2, tr0)
          else
            let (res, s3, tl) := logicalSetTail h lr rhsE s2
            (res, s3, tr0 ++ tl)

/-- The compound branch (src lines 184-216): dereference the target, then
the source, look the token up in `opTextMap`, apply the binary-operator
collaborator, and hand its result to `PutValue` and to the caller.  As in
the source, the result of the operator application is not unwrapped
(`ReturnIfAbrupt`) before the store. -/
def evalCompoundAssign (h : Host σ) (lhsE : Node) (op : String) (rhsE : Node) (s : σ) :
    Completion JSValue × σ × List Event :=
  let (lref, s1) := h.evaluate lhsE s
  match lref with
  | .abrupt a => (.abrupt a, s1, [.evalL lhsE (.abrupt a), .getV (.abrupt a) (.abrupt a)])
  | .normal lr =>
      let (lv, s2) := h.getValue lr s1
      let tr0 := [Event.evalL lhsE (.normal lr), Event.getV (.normal lr) lv]
      match lv with
      | .abrupt a => (.abrupt a, s2, tr0)
      | .normal lval =>
          let (rref, s3) := h.evaluate rhsE s2
          let (rv, s4, tg) := GetValueStep h rref s3
          let tr1 := tr0 ++ Event.evalR rhsE rref :: tg
          match rv with
          | .abrupt a => (.abrupt a, s4, tr1)
          | .normal rval =>
              let opText := opTextMap op
              let (r, s5) := h.applyOp lval opText rval s4
              let (pres, s6) := h.putValue lr r s5
              let tr := tr1 ++ [Event.applyB lval opText rval r, Event.putV lr r pres]
              match pres with
              | .abrupt a => (.abrupt a, s6, tr)
              | .normal _ => (r, s6, tr)

/-- Wraps a branch outcome into the evaluator's result type (those branches
raise no host exception). -/
def okWrap : Completion JSValue × σ × List Event →
    Except String (Completion JSValue) × σ × List Event
  | (c, s, t) => (.ok c, s, t)

/-- Embedding of `Evaluate_AssignmentExpression` (src lines 93-217): the
top-level dispatch on the operator token.  Any token other than `=`,
`&&=`, `||=` and `??=` falls into the compound branch. -/
def Evaluate_AssignmentExpression (h : Host σ) (LeftHandSideExpression : Node)
    (AssignmentOperator : String) (AssignmentExpression : Node) (s : σ) :
    Except String (Completion JSValue) × σ × List Event :=
  if AssignmentOperator = "=" then
    evalSimpleAssign h LeftHandSideExpression AssignmentExpression s
  else if AssignmentOperator = "&&=" then
    okWrap (evalAndAssign h LeftHandSideExpression AssignmentExpression s)
  else if AssignmentOperator = "||=" then
    okWrap (evalOrAssign h LeftHandSideExpression AssignmentExpression s)
  else if AssignmentOperator = "??=" then
    okWrap (evalNullishAssign h LeftHandSideExpression AssignmentExpression s)
  else
    okWrap (evalCompoundAssign h LeftHandSideExpression AssignmentOperator
      AssignmentExpression s)

/-- The twelve compound assignment tokens paired with the base operator
symbol the table of the compound branch associates with each. -/
def compoundOperatorPairs : List (String × String) :=
  [("**=", "**"), ("*=", "*"), ("/=", "/"), ("%=", "%"), ("+=", "+"), ("-=", "-"),
   ("<<=", "<<"), (">>=", ">>"), (">>>=", ">>>"), ("&=", "&"), ("^=", "^"), ("|=", "|")]

/-- The claim-side characterization of the short-circuit test of the three
logical assignment operators saying "stop": `&&=` stops on a falsy current
value, `||=` on a truthy one, `??=` on one that is neither `undefined` nor
`null`. -/
def logicalStopHolds {σ : Type} (h : Host σ) (op : String) (v : JSValue) : Prop :=
  (op = "&&=" ∧ h.toBoolean v = false) ∨
  (op = "||=" ∧ h.toBoolean v = true) ∨
  (op = "??=" ∧ v ≠ JSValue.undefinedV ∧ v ≠ JSValue.nullV)

/-- `true` exactly for the two trace events that evaluate the source
expression: a plain source evaluation and a named evaluation. -/
def isSourceEval : Event → Bool
  | .evalR _ _ => true
  | .namedEvalR _ _ _ => true
  | _ => false

/-- The payload a trace event hands to a value-storing collaborator: the
`Dyn` given to `PutValue`, or the source value given to the destructuring
evaluator (which performs the stores of the destructuring branch). -/
def storePayload : Event → Option Dyn
  | .putV _ w _ => some w
  | .destructA _ w _ => some (.normal w)
  | _ => none

/-- A concrete stateless host used to instantiate the general theorems:
`a` names a binding (reference 0) currently holding `false`; every other
expression evaluates to reference 1, holding the number 2; stores succeed;
the binary operator returns 3; `AnonFn`-tagged nodes count as anonymous
function definitions. -/
def unitHost : Host Unit where
  evaluate := fun n _ =>
    (.normal (match n with | .IdentifierReference "a" => 0 | _ => 1), ())
  getValue := fun r _ => (.normal (if r = 0 then .boolV false else .numV 2), ())
  putValue := fun _ _ _ => (.normal (), ())
  toBoolean := fun v =>
    match v with
    | .boolV b => b
    | .undefinedV => false
    | .nullV => false
    | _ => true
  getReferencedName := fun _ => "a"
  namedEvaluation := fun _ _ _ => (.normal (.objV 7), ())
  applyOp := fun _ _ _ _ => (.normal (.numV 3), ())
  destructuring := fun _ _ _ => (.normal .undefinedV, ())
  isAnonymousFunctionDefinition := fun n =>
    match n with | .Other "AnonFn" _ => true | _ => false
  isIdentifierRef := fun n =>
    match n with | .IdentifierReference _ => true | _ => false

/-- A host on which the compound branch's missing unwrap is observable: the
binary-operator collaborator returns a throw completion, and the store
collaborator returns a different throw completion. -/
def hostPutThrows : Host Unit where
  evaluate := fun n _ =>
    (.normal (match n with | .IdentifierReference "a" => 0 | _ => 1), ())
  getValue := fun r _ => (.normal (if r = 0 then .numV 0 else .numV 1), ())
  putValue := fun _ _ _ => (.abrupt ⟨.throwC, .strV "from PutValue", none⟩, ())
  toBoolean := fun _ => true
  getReferencedName := fun _ => "a"
  namedEvaluation := fun _ _ _ => (.normal .undefinedV, ())
  applyOp := fun _ _ _ _ =>
    (.abrupt ⟨.throwC, .strV "from ApplyStringOrNumericBinaryOperator", none⟩, ())
  destructuring := fun _ _ _ => (.normal .undefinedV, ())
  isAnonymousFunctionDefinition := fun _ => false
  isIdentifierRef := fun _ => true

lemma opTextMap_mem_iff (tok base : String) :
    opTextMap tok = some base ↔ (tok, base) ∈ compoundOperatorPairs := by
  constructor
  · intro hmap
    unfold opTextMap at hmap
    split at hmap <;> simp_all [compoundOperatorPairs]
  · intro hmem
    simp only [compoundOperatorPairs, List.mem_cons, List.not_mem_nil, or_false,
      Prod.mk.injEq] at hmem
    obtain h | h | h | h | h | h | h | h | h | h | h | h := hmem <;>
      (obtain ⟨rfl, rfl⟩ := h; rfl)

/-- Claim C4: refuted behaviour at the failing input.  An array-literal
element that is a hole does not pass through the refiner as an element with
an absent target: no case of the refiner produces an absent-target shape,
and a hole node falls into the default case, which raises the fatal
`OutOfRange` internal-invariant error. -/
theorem refine_array_hole_out_of_range :
    refineLeftHandSideExpression (.ArrayLiteral [.Elision]) =
      Except.error "OutOfRange: refineLeftHandSideExpression Elision" := rfl

/-- Claim C5: refuted behaviour at the failing input.  For a property whose
value is the assignment expression `t = d`, the produced
`AssignmentElement` does not carry the default under its `Initializer`
field (which is absent): the construction site writes the default under a
field named `AssignmentExpression`, which is not a field of the section-3
data model. -/
theorem refine_default_under_wrong_field :
    refineLeftHandSideExpression (.ObjectLiteral
      [.PropertyDefinition (some (.IdentifierReference "k"))
        (some (.AssignmentExpressionN (.IdentifierReference "t") "=" (.IdentifierReference "d")))]) =
    Except.ok (.ObjectAssignmentPattern
      [.AssignmentPropertyKeyed (some (.IdentifierReference "k"))
        (.AssignmentElement (.IdentifierReference "t") none (some (.IdentifierReference "d")))]
      none) := rfl

/-- Claim C7: the compound-operator token mapping is exhaustive and exact
over the twelve compound tokens: a token maps to a base operator symbol
precisely when the pair is one of the twelve enumerated ones, so each
compound token maps to its listed base operator and no compound token maps
to any other symbol. -/
theorem compound_token_table_exhaustive_exact (tok base : String) :
    opTextMap tok = some base ↔ (tok, base) ∈ compoundOperatorPairs :=
  opTextMap_mem_iff tok base

/-- Claim C2: for `&&=`, `||=` and `??=`, when the short-circuit test on the
dereferenced current value of the target says stop, the current value is
returned at once, the source is never evaluated and no store happens (the
trace holds exactly the target evaluation and its dereference); otherwise
the source is evaluated exactly once, dereferenced, stored into the target
reference, and the stored value is returned. -/
theorem logical_assignment_short_circuit {σ : Type} (h : Host σ)
    (op : String) (lhsE rhsE : Node) (s s1 s2 : σ) (lr : Ref) (lval : JSValue)
    (hop : op ∈ ["&&=", "||=", "??="])
    (hEv : h.evaluate lhsE s = (.normal lr, s1))
    (hGet : h.getValue lr s1 = (.normal lval, s2)) :
    (logicalStopHolds h op lval →
      Evaluate_AssignmentExpression h lhsE op rhsE s =
        (.ok (.normal lval), s2,
         [.evalL lhsE (.normal lr), .getV (.normal lr) (.normal lval)])) ∧
    (¬ logicalStopHolds h op lval →
      ∀ (rr : Ref) (s3 : σ) (rval : JSValue) (s4 s5 : σ) (u : Unit),
        h.evaluate rhsE s2 = (.normal rr, s3) →
        h.getValue rr s3 = (.normal rval, s4) →
        h.putValue lr (.normal rval) s4 = (.normal u, s5) →
        Evaluate_AssignmentExpression h lhsE op rhsE s =
          (.ok (.normal rval), s5,
           [.evalL lhsE (.normal lr), .getV (.normal lr) (.normal lval),
            .evalR rhsE (.normal rr), .getV (.normal rr) (.normal rval),
            .putV lr (.normal rval) (.normal u)])) := by
  simp only [List.mem_cons, List.not_mem_nil, or_false] at hop
  rcases hop with rfl | rfl | rfl
  · have hd : Evaluate_AssignmentExpression h lhsE "&&=" rhsE s =
        okWrap (evalAndAssign h lhsE rhsE s) := rfl
    constructor
    · intro hstop
      have htb : h.toBoolean lval = false := by
        rcases hstop with ⟨_, htb⟩ | ⟨hbad, _⟩ | ⟨hbad, _⟩
        · exact htb
        · exact absurd hbad (by decide)
        · exact absurd hbad (by decide)
      rw [hd]
      simp [evalAndAssign, hEv, hGet, htb, okWrap]
    · intro hgo rr s3 rval s4 s5 u hEvR hGetR hPut
      cases htb : h.toBoolean lval with
      | false => exact absurd (Or.inl ⟨rfl, htb⟩) hgo
      | true =>
        rw [hd]
        simp [evalAndAssign, hEv, hGet, htb, logicalSetTail, GetValueStep,
          hEvR, hGetR, hPut, okWrap]
  · have hd : Evaluate_AssignmentExpression h lhsE "||=" rhsE s =
        okWrap (evalOrAssign h lhsE rhsE s) := rfl
    constructor
    · intro hstop
      have htb : h.toBoolean lval = true := by
        rcases hstop with ⟨hbad, _⟩ | ⟨_, htb⟩ | ⟨hbad, _⟩
        · exact absurd hbad (by decide)
        · exact htb
        · exact absurd hbad (by decide)
      rw [hd]
      simp [evalOrAssign, hEv, hGet, htb, okWrap]
    · intro hgo rr s3 rval s4 s5 u hEvR hGetR hPut
      cases htb : h.toBoolean lval with
      | true => exact absurd (Or.inr (Or.inl ⟨rfl, htb⟩)) hgo
      | false =>
        rw [hd]
        simp [evalOrAssign, hEv, hGet, htb, logicalSetTail, GetValueStep,
          hEvR, hGetR, hPut, okWrap]
  · have hd : Evaluate_AssignmentExpression h lhsE "??=" rhsE s =
        okWrap (evalNullishAssign h lhsE rhsE s) := rfl
    constructor
    · intro hstop
      have hc : lval ≠ JSValue.undefinedV ∧ lval ≠ JSValue.nullV := by
        rcases hstop with ⟨hbad, _⟩ | ⟨hbad, _⟩ | ⟨_, hc⟩
        · exact absurd hbad (by decide)
        · exact absurd hbad (by decide)
        · exact hc
      rw [hd]
      simp [evalNullishAssign, hEv, hGet, hc.1, hc.2, okWrap]
    · intro hgo rr s3 rval s4 s5 u hEvR hGetR hPut
      have hc : ¬ (lval ≠ JSValue.undefinedV ∧ lval ≠ JSValue.nullV) :=
        fun hc => hgo (Or.inr (Or.inr ⟨rfl, hc⟩))
      rw [hd]
      simp only [evalNullishAssign, hEv, hGet, if_neg hc]
      simp [logicalSetTail, GetValueStep, hEvR, hGetR, hPut, okWrap]

lemma compound_dispatch {σ : Type} (h : Host σ) (lhsE : Node) (op : String) (rhsE : Node)
    (s : σ) (h1 : op ≠ "=") (h2 : op ≠ "&&=") (h3 : op ≠ "||=") (h4 : op ≠ "??=") :
    Evaluate_AssignmentExpression h lhsE op rhsE s =
      okWrap (evalCompoundAssign h lhsE op rhsE s) := by
  simp [Evaluate_AssignmentExpression, h1, h2, h3, h4]

/-- Claim C3: in every compound assignment evaluation the target is evaluated and
dereferenced strictly before the source expression is evaluated: the trace
opens with the target evaluation followed immediately by its dereference,
and whenever the source was evaluated, the target dereference had returned
a value, and the binary operator is applied to exactly that value. -/
theorem compound_target_deref_before_source {σ : Type} (h : Host σ) (lhsE : Node)
    (op : String) (rhsE : Node) (s : σ)
    (hop : op ∈ compoundOperatorPairs.map Prod.fst) :
    ∃ lref lres t,
      (Evaluate_AssignmentExpression h lhsE op rhsE s).2.2 =
        Event.evalL lhsE lref :: Event.getV lref lres :: t ∧
      (∀ n r, Event.evalR n r ∈ t →
        ∃ lval, lres = Completion.normal lval ∧
          ∀ l o rv ar, Event.applyB l o rv ar ∈ t → l = lval) := by
  have h1 : op ≠ "=" := by rintro rfl; revert hop; decide
  have h2 : op ≠ "&&=" := by rintro rfl; revert hop; decide
  have h3 : op ≠ "||=" := by rintro rfl; revert hop; decide
  have h4 : op ≠ "??=" := by rintro rfl; revert hop; decide
  rw [compound_dispatch h lhsE op rhsE s h1 h2 h3 h4]
  rcases hEv : h.evaluate lhsE s with ⟨lref, s1⟩
  cases lref with
  | abrupt a =>
    exact ⟨.abrupt a, .abrupt a, [], by simp [okWrap, evalCompoundAssign, hEv], by simp⟩
  | normal lr =>
    rcases hGet : h.getValue lr s1 with ⟨lv, s2⟩
    cases lv with
    | abrupt a =>
      exact ⟨.normal lr, .abrupt a, [], by simp [okWrap, evalCompoundAssign, hEv, hGet], by simp⟩
    | normal lval =>
      rcases hEvR : h.evaluate rhsE s2 with ⟨rref, s3⟩
      cases rref with
      | abrupt a =>
        refine ⟨.normal lr, .normal lval, [.evalR rhsE (.abrupt a), .getV (.abrupt a) (.abrupt a)],
          by simp [okWrap, evalCompoundAssign, hEv, hGet, hEvR, GetValueStep], ?_⟩
        intro n r _
        refine ⟨lval, rfl, ?_⟩
        intro l o rv ar hmem
        simp at hmem
      | normal rr =>
        rcases hGetR : h.getValue rr s3 with ⟨rv, s4⟩
        cases rv with
        | abrupt a =>
          refine ⟨.normal lr, .normal lval,
            [.evalR rhsE (.normal rr), .getV (.normal rr) (.abrupt a)],
            by simp [okWrap, evalCompoundAssign, hEv, hGet, hEvR, hGetR, GetValueStep], ?_⟩
          intro n r _
          refine ⟨lval, rfl, ?_⟩
          intro l o rv ar hmem
          simp at hmem
        | normal rval =>
          rcases hApp : h.applyOp lval (opTextMap op) rval s4 with ⟨ares, s5⟩
          rcases hPut : h.putValue lr ares s5 with ⟨pres, s6⟩
          refine ⟨.normal lr, .normal lval,
            [.evalR rhsE (.normal rr), .getV (.normal rr) (.normal rval),
             .applyB lval (opTextMap op) rval ares, .putV lr ares pres], ?_, ?_⟩
          · cases pres <;>
              simp [okWrap, evalCompoundAssign, hEv, hGet, hEvR, hGetR, GetValueStep, hApp, hPut]
          · intro n r _
            refine ⟨lval, rfl, ?_⟩
            intro l o rv ar hmem
            simp at hmem
            exact hmem.1

/-- Claim C6: for plain `=` with a non-destructuring target, once the target has
evaluated to a reference, the source is evaluated through `NamedEvaluation`
with the target identifier's referenced name exactly when the source is an
anonymous function or class definition and the target is an identifier
reference (the trace then holds a named evaluation and no plain source
evaluation); in every other case the source is evaluated normally and
dereferenced to a value (the trace holds a plain source evaluation and its
dereference, and no named evaluation). -/
theorem simple_assign_inferred_name_condition {σ : Type} (h : Host σ)
    (lhsE rhsE : Node) (s s1 : σ) (lr : Ref)
    (hLit : lhsE.isObjectLiteral = false ∧ lhsE.isArrayLiteral = false)
    (hEv : h.evaluate lhsE s = (.normal lr, s1)) :
    ((h.isAnonymousFunctionDefinition rhsE = true ∧ h.isIdentifierRef lhsE = true) →
      ∀ (rv : Dyn) (s2 : σ) (pres : Completion Unit) (s3 : σ),
        h.namedEvaluation rhsE (h.getReferencedName lr) s1 = (rv, s2) →
        h.putValue lr rv s2 = (pres, s3) →
        Evaluate_AssignmentExpression h lhsE "=" rhsE s =
          ((match pres with
            | .normal _ => Except.ok rv
            | .abrupt a => Except.ok (.abrupt a)), s3,
           [.evalL lhsE (.normal lr),
            .namedEvalR rhsE (h.getReferencedName lr) rv,
            .putV lr rv pres])) ∧
    (¬ (h.isAnonymousFunctionDefinition rhsE = true ∧ h.isIdentifierRef lhsE = true) →
      ∀ (rr : Ref) (s2 : σ) (rval : JSValue) (s3 : σ) (pres : Completion Unit) (s4 : σ),
        h.evaluate rhsE s1 = (.normal rr, s2) →
        h.getValue rr s2 = (.normal rval, s3) →
        h.putValue lr (.normal rval) s3 = (pres, s4) →
        Evaluate_AssignmentExpression h lhsE "=" rhsE s =
          ((match pres with
            | .normal _ => Except.ok (.normal rval)
            | .abrupt a => Except.ok (.abrupt a)), s4,
           [.evalL lhsE (.normal lr), .evalR rhsE (.normal rr),
            .getV (.normal rr) (.normal rval),
            .putV lr (.normal rval) pres])) := by
  have hd : Evaluate_AssignmentExpression h lhsE "=" rhsE s =
      evalSimpleAssign h lhsE rhsE s := rfl
  constructor
  · intro hb rv s2 pres s3 hNamed hPut
    rw [hd]
    cases pres <;>
      simp [evalSimpleAssign, hLit.1, hLit.2, hEv, hb, hNamed, hPut]
  · intro hb rr s2 rval s3 pres s4 hEvR hGetR hPut
    rw [hd]
    cases pres <;>
      simp [evalSimpleAssign, hLit.1, hLit.2, hEv, hb, GetValueStep, hEvR, hGetR, hPut]

/-- Claim C8: a plain `=` assignment with a non-destructuring target that
completes normally has evaluated its source exactly once, and the value it
returns is the value it stored into the target reference. -/
theorem simple_assign_source_evaluated_once {σ : Type} (h : Host σ)
    (lhsE rhsE : Node) (s s' : σ) (v : JSValue) (tr : List Event)
    (hLit : lhsE.isObjectLiteral = false ∧ lhsE.isArrayLiteral = false)
    (hRun : Evaluate_AssignmentExpression h lhsE "=" rhsE s = (.ok (.normal v), s', tr)) :
    tr.countP isSourceEval = 1 ∧
    ∃ (lr : Ref) (pres : Completion Unit), Event.putV lr (.normal v) pres ∈ tr := by
  have hd : Evaluate_AssignmentExpression h lhsE "=" rhsE s =
      evalSimpleAssign h lhsE rhsE s := rfl
  rw [hd] at hRun
  rcases hEv : h.evaluate lhsE s with ⟨lref, s1⟩
  cases lref with
  | abrupt a =>
    have hval : evalSimpleAssign h lhsE rhsE s = (.ok (.abrupt a), s1, [.evalL lhsE (.abrupt a)]) := by
      simp [evalSimpleAssign, hLit.1, hLit.2, hEv]
    rw [hval] at hRun
    simp at hRun
  | normal lr =>
    by_cases hb : h.isAnonymousFunctionDefinition rhsE = true ∧ h.isIdentifierRef lhsE = true
    · rcases hNamed : h.namedEvaluation rhsE (h.getReferencedName lr) s1 with ⟨rv, s2⟩
      rcases hPut : h.putValue lr rv s2 with ⟨pres, s3⟩
      cases pres with
      | abrupt a =>
        have hval : evalSimpleAssign h lhsE rhsE s = (.ok (.abrupt a), s3,
            [.evalL lhsE (.normal lr), .namedEvalR rhsE (h.getReferencedName lr) rv,
             .putV lr rv (.abrupt a)]) := by
          simp [evalSimpleAssign, hLit.1, hLit.2, hEv, hb, hNamed, hPut]
        rw [hval] at hRun
        simp at hRun
      | normal u =>
        have hval : evalSimpleAssign h lhsE rhsE s = (.ok rv, s3,
            [.evalL lhsE (.normal lr), .namedEvalR rhsE (h.getReferencedName lr) rv,
             .putV lr rv (.normal u)]) := by
          simp [evalSimpleAssign, hLit.1, hLit.2, hEv, hb, hNamed, hPut]
        rw [hval] at hRun
        simp only [Prod.mk.injEq, Except.ok.injEq] at hRun
        obtain ⟨hrv, _, htr⟩ := hRun
        subst hrv
        subst htr
        exact ⟨by simp [List.countP, List.countP.go, isSourceEval], lr, .normal u, by simp⟩
    · rcases hEvR : h.evaluate rhsE s1 with ⟨rref, s2⟩
      cases rref with
      | abrupt a =>
        have hval : evalSimpleAssign h lhsE rhsE s = (.ok (.abrupt a), s2,
            [.evalL lhsE (.normal lr), .evalR rhsE (.abrupt a), .getV (.abrupt a) (.abrupt a)]) := by
          simp [evalSimpleAssign, hLit.1, hLit.2, hEv, hb, hEvR, GetValueStep]
        rw [hval] at hRun
        simp at hRun
      | normal rr =>
        rcases hGetR : h.getValue rr s2 with ⟨rv, s3⟩
        cases rv with
        | abrupt a =>
          have hval : evalSimpleAssign h lhsE rhsE s = (.ok (.abrupt a), s3,
              [.evalL lhsE (.normal lr), .evalR rhsE (.normal rr),
               .getV (.normal rr) (.abrupt a)]) := by
            simp [evalSimpleAssign, hLit.1, hLit.2, hEv, hb, hEvR, hGetR, GetValueStep]
          rw [hval] at hRun
          simp at hRun
        | normal rval =>
          rcases hPut : h.putValue lr (.normal rval) s3 with ⟨pres, s4⟩
          cases pres with
          | abrupt a =>
            have hval : evalSimpleAssign h lhsE rhsE s = (.ok (.abrupt a), s4,
                [.evalL lhsE (.normal lr), .evalR rhsE (.normal rr),
                 .getV (.normal rr) (.normal rval), .putV lr (.normal rval) (.abrupt a)]) := by
              simp [evalSimpleAssign, hLit.1, hLit.2, hEv, hb, hEvR, hGetR, hPut, GetValueStep]
            rw [hval] at hRun
            simp at hRun
          | normal u =>
            have hval : evalSimpleAssign h lhsE rhsE s = (.ok (.normal rval), s4,
                [.evalL lhsE (.normal lr), .evalR rhsE (.normal rr),
                 .getV (.normal rr) (.normal rval), .putV lr (.normal rval) (.normal u)]) := by
              simp [evalSimpleAssign, hLit.1, hLit.2, hEv, hb, hEvR, hGetR, hPut, GetValueStep]
            rw [hval] at hRun
            simp only [Prod.mk.injEq, Except.ok.injEq, Completion.normal.injEq] at hRun
            obtain ⟨hrv, _, htr⟩ := hRun
            subst hrv
            subst htr
            exact ⟨by simp [List.countP, List.countP.go, isSourceEval], lr, .normal u, by simp⟩

/-- Claim C9: the evaluator validates no operator token: every token other than
`=`, `&&=`, `||=` and `??=` takes the compound branch, and a token outside
the twelve-entry table yields no operator symbol (`none`), which is passed
on to the binary-operator collaborator rather than raising an
internal-invariant error. -/
theorem unknown_operator_passed_through {σ : Type} (h : Host σ) (lhsE : Node)
    (op : String) (rhsE : Node) (s s1 s2 s3 s4 : σ) (lr : Ref) (lval : JSValue)
    (rr : Ref) (rval : JSValue)
    (hop4 : op ∉ ["=", "&&=", "||=", "??="])
    (hop12 : op ∉ compoundOperatorPairs.map Prod.fst)
    (hEv : h.evaluate lhsE s = (.normal lr, s1))
    (hGet : h.getValue lr s1 = (.normal lval, s2))
    (hEvR : h.evaluate rhsE s2 = (.normal rr, s3))
    (hGetR : h.getValue rr s3 = (.normal rval, s4)) :
    Evaluate_AssignmentExpression h lhsE op rhsE s =
      okWrap (evalCompoundAssign h lhsE op rhsE s) ∧
    opTextMap op = none ∧
    ∃ (ares : Dyn) (s5 : σ), h.applyOp lval none rval s4 = (ares, s5) ∧
      Event.applyB lval none rval ares ∈ (Evaluate_AssignmentExpression h lhsE op rhsE s).2.2 := by
  have h1 : op ≠ "=" := fun he => hop4 (by rw [he]; simp)
  have h2 : op ≠ "&&=" := fun he => hop4 (by rw [he]; simp)
  have h3 : op ≠ "||=" := fun he => hop4 (by rw [he]; simp)
  have h4 : op ≠ "??=" := fun he => hop4 (by rw [he]; simp)
  have hdisp := compound_dispatch h lhsE op rhsE s h1 h2 h3 h4
  have hnone : opTextMap op = none := by
    rcases hmo : opTextMap op with _ | base
    · rfl
    · exact absurd (List.mem_map_of_mem Prod.fst ((opTextMap_mem_iff op base).mp hmo)) hop12
  refine ⟨hdisp, hnone, ?_⟩
  rcases hApp : h.applyOp lval none rval s4 with ⟨ares, s5⟩
  rcases hPut : h.putValue lr ares s5 with ⟨pres, s6⟩
  refine ⟨ares, s5, rfl, ?_⟩
  rw [hdisp]
  cases pres <;>
    simp [okWrap, evalCompoundAssign, hEv, hGet, hEvR, hGetR, GetValueStep, hnone, hApp, hPut]

lemma logicalSetTail_normal {σ : Type} (h : Host σ) (lr : Ref) (rhsE : Node)
    (s s' : σ) (v : JSValue) (tr : List Event)
    (hRun : logicalSetTail h lr rhsE s = (.normal v, s', tr)) :
    ∃ e ∈ tr, storePayload e = some (.normal v) := by
  rcases hEvR : h.evaluate rhsE s with ⟨rref, s1⟩
  cases rref with
  | abrupt a =>
    have hval : logicalSetTail h lr rhsE s = (.abrupt a, s1,
        [.evalR rhsE (.abrupt a), .getV (.abrupt a) (.abrupt a)]) := by
      simp [logicalSetTail, hEvR, GetValueStep]
    rw [hval] at hRun
    simp at hRun
  | normal rr =>
    rcases hGetR : h.getValue rr s1 with ⟨rv, s2⟩
    cases rv with
    | abrupt a =>
      have hval : logicalSetTail h lr rhsE s = (.abrupt a, s2,
          [.evalR rhsE (.normal rr), .getV (.normal rr) (.abrupt a)]) := by
        simp [logicalSetTail, hEvR, hGetR, GetValueStep]
      rw [hval] at hRun
      simp at hRun
    | normal rval =>
      rcases hPut : h.putValue lr (.normal rval) s2 with ⟨pres, s3⟩
      cases pres with
      | abrupt a =>
        have hval : logicalSetTail h lr rhsE s = (.abrupt a, s3,
            [.evalR rhsE (.normal rr), .getV (.normal rr) (.normal rval),
             .putV lr (.normal rval) (.abrupt a)]) := by
          simp [logicalSetTail, hEvR, hGetR, hPut, GetValueStep]
        rw [hval] at hRun
        simp at hRun
      | normal u =>
        have hval : logicalSetTail h lr rhsE s = (.normal rval, s3,
            [.evalR rhsE (.normal rr), .getV (.normal rr) (.normal rval),
             .putV lr (.normal rval) (.normal u)]) := by
          simp [logicalSetTail, hEvR, hGetR, hPut, GetValueStep]
        rw [hval] at hRun
        simp only [Prod.mk.injEq, Completion.normal.injEq] at hRun
        obtain ⟨rfl, _, rfl⟩ := hRun
        exact ⟨.putV lr (.normal rval) (.normal u), by simp, by simp [storePayload]⟩

lemma okWrap_eq {σ : Type} {p : Completion JSValue × σ × List Event}
    {c : Completion JSValue} {s : σ} {t : List Event}
    (hw : okWrap p = (Except.ok c, s, t)) : p = (c, s, t) := by
  rcases p with ⟨c0, s0, t0⟩
  simp only [okWrap, Prod.mk.injEq, Except.ok.injEq] at hw
  obtain ⟨rfl, rfl, rfl⟩ := hw
  rfl

lemma evalSimpleAssign_normal_store {σ : Type} (h : Host σ) (lhsE rhsE : Node)
    (s s' : σ) (v : JSValue) (tr : List Event)
    (hRun : evalSimpleAssign h lhsE rhsE s = (.ok (.normal v), s', tr)) :
    ∃ e ∈ tr, storePayload e = some (.normal v) := by
  by_cases hc : lhsE.isObjectLiteral = false ∧ lhsE.isArrayLiteral = false
  · rcases hEv : h.evaluate lhsE s with ⟨lref, s1⟩
    cases lref with
    | abrupt a =>
      have hval : evalSimpleAssign h lhsE rhsE s =
          (.ok (.abrupt a), s1, [.evalL lhsE (.abrupt a)]) := by
        simp [evalSimpleAssign, hc, hEv]
      rw [hval] at hRun
      simp at hRun
    | normal lr =>
      by_cases hb : h.isAnonymousFunctionDefinition rhsE = true ∧ h.isIdentifierRef lhsE = true
      · rcases hNamed : h.namedEvaluation rhsE (h.getReferencedName lr) s1 with ⟨rv, s2⟩
        rcases hPut : h.putValue lr rv s2 with ⟨pres, s3⟩
        cases pres with
        | abrupt a =>
          have hval : evalSimpleAssign h lhsE rhsE s = (.ok (.abrupt a), s3,
              [.evalL lhsE (.normal lr), .namedEvalR rhsE (h.getReferencedName lr) rv,
               .putV lr rv (.abrupt a)]) := by
            simp [evalSimpleAssign, hc, hEv, hb, hNamed, hPut]
          rw [hval] at hRun
          simp at hRun
        | normal u =>
          have hval : evalSimpleAssign h lhsE rhsE s = (.ok rv, s3,
              [.evalL lhsE (.normal lr), .namedEvalR rhsE (h.getReferencedName lr) rv,
               .putV lr rv (.normal u)]) := by
            simp [evalSimpleAssign, hc, hEv, hb, hNamed, hPut]
          rw [hval] at hRun
          simp only [Prod.mk.injEq, Except.ok.injEq] at hRun
          obtain ⟨hrv, hs, htr⟩ := hRun
          subst htr
          exact ⟨.putV lr rv (.normal u), by simp, by simp [storePayload, hrv]⟩
      · rcases hEvR : h.evaluate rhsE s1 with ⟨rref, s2⟩
        cases rref with
        | abrupt a =>
          have hval : evalSimpleAssign h lhsE rhsE s = (.ok (.abrupt a), s2,
              [.evalL lhsE (.normal lr), .evalR rhsE (.abrupt a),
               .getV (.abrupt a) (.abrupt a)]) := by
            simp [evalSimpleAssign, hc, hEv, hb, hEvR, GetValueStep]
          rw [hval] at hRun
          simp at hRun
        | normal rr =>
          rcases hGetR : h.getValue rr s2 with ⟨rv, s3⟩
          cases rv with
          | abrupt a =>
            have hval : evalSimpleAssign h lhsE rhsE s = (.ok (.abrupt a), s3,
                [.evalL lhsE (.normal lr), .evalR rhsE (.normal rr),
                 .getV (.normal rr) (.abrupt a)]) := by
              simp [evalSimpleAssign, hc, hEv, hb, hEvR, hGetR, GetValueStep]
            rw [hval] at hRun
            simp at hRun
          | normal rval =>
            rcases hPut : h.putValue lr (.normal rval) s3 with ⟨pres, s4⟩
            cases pres with
            | abrupt a =>
              have hval : evalSimpleAssign h lhsE rhsE s = (.ok (.abrupt a), s4,
                  [.evalL lhsE (.normal lr), .evalR rhsE (.normal rr),
                   .getV (.normal rr) (.normal rval),
                   .putV lr (.normal rval) (.abrupt a)]) := by
                simp [evalSimpleAssign, hc, hEv, hb, hEvR, hGetR, hPut, GetValueStep]
              rw [hval] at hRun
              simp at hRun
            | normal u =>
              have hval : evalSimpleAssign h lhsE rhsE s = (.ok (.normal rval), s4,
                  [.evalL lhsE (.normal lr), .evalR rhsE (.normal rr),
                   .getV (.normal rr) (.normal rval),
                   .putV lr (.normal rval) (.normal u)]) := by
                simp [evalSimpleAssign, hc, hEv, hb, hEvR, hGetR, hPut, GetValueStep]
              rw [hval] at hRun
              simp only [Prod.mk.injEq, Except.ok.injEq, Completion.normal.injEq] at hRun
              obtain ⟨hrv, hs, htr⟩ := hRun
              subst htr
              exact ⟨.putV lr (.normal rval) (.normal u), by simp, by simp [storePayload, hrv]⟩
  · rcases hRef : refineLeftHandSideExpression lhsE with e | pat
    · have hval : evalSimpleAssign h lhsE rhsE s = (.error e, s, []) := by
        simp [evalSimpleAssign, hc, hRef]
      rw [hval] at hRun
      simp at hRun
    · rcases hEvR : h.evaluate rhsE s with ⟨rref, s1⟩
      cases rref with
      | abrupt a =>
        have hval : evalSimpleAssign h lhsE rhsE s = (.ok (.abrupt a), s1,
            [.evalR rhsE (.abrupt a), .getV (.abrupt a) (.abrupt a)]) := by
          simp [evalSimpleAssign, hc, hRef, hEvR, GetValueStep]
        rw [hval] at hRun
        simp at hRun
      | normal rr =>
        rcases hGetR : h.getValue rr s1 with ⟨rv, s2⟩
        cases rv with
        | abrupt a =>
          have hval : evalSimpleAssign h lhsE rhsE s = (.ok (.abrupt a), s2,
              [.evalR rhsE (.normal rr), .getV (.normal rr) (.abrupt a)]) := by
            simp [evalSimpleAssign, hc, hRef, hEvR, hGetR, GetValueStep]
          rw [hval] at hRun
          simp at hRun
        | normal rval =>
          rcases hDes : h.destructuring pat rval s2 with ⟨dres, s3⟩
          cases dres with
          | abrupt a =>
            have hval : evalSimpleAssign h lhsE rhsE s = (.ok (.abrupt a), s3,
                [.evalR rhsE (.normal rr), .getV (.normal rr) (.normal rval),
                 .destructA pat rval (.abrupt a)]) := by
              simp [evalSimpleAssign, hc, hRef, hEvR, hGetR, hDes, GetValueStep]
            rw [hval] at hRun
            simp at hRun
          | normal w =>
            have hval : evalSimpleAssign h lhsE rhsE s = (.ok (.normal rval), s3,
                [.evalR rhsE (.normal rr), .getV (.normal rr) (.normal rval),
                 .destructA pat rval (.normal w)]) := by
              simp [evalSimpleAssign, hc, hRef, hEvR, hGetR, hDes, GetValueStep]
            rw [hval] at hRun
            simp only [Prod.mk.injEq, Except.ok.injEq, Completion.normal.injEq] at hRun
            obtain ⟨hrv, hs, htr⟩ := hRun
            subst htr
            exact ⟨.destructA pat rval (.normal w), by simp, by simp [storePayload, hrv]⟩

lemma evalAndAssign_normal_char {σ : Type} (h : Host σ) (lhsE rhsE : Node)
    (s s' : σ) (v : JSValue) (tr : List Event)
    (hRun : evalAndAssign h lhsE rhsE s = (.normal v, s', tr)) :
    (∃ e ∈ tr, storePayload e = some (.normal v)) ∨
    ((∀ e ∈ tr, storePayload e = none) ∧
      ∃ lr : Ref, tr = [.evalL lhsE (.normal lr), .getV (.normal lr) (.normal v)]) := by
  rcases hEv : h.evaluate lhsE s with ⟨lref, s1⟩
  cases lref with
  | abrupt a =>
    have hval : evalAndAssign h lhsE rhsE s = (.abrupt a, s1,
        [.evalL lhsE (.abrupt a), .getV (.abrupt a) (.abrupt a)]) := by
      simp [evalAndAssign, hEv]
    rw [hval] at hRun
    simp at hRun
  | normal lr =>
    rcases hGet : h.getValue lr s1 with ⟨lv, s2⟩
    cases lv with
    | abrupt a =>
      have hval : evalAndAssign h lhsE rhsE s = (.abrupt a, s2,
          [.evalL lhsE (.normal lr), .getV (.normal lr) (.abrupt a)]) := by
        simp [evalAndAssign, hEv, hGet]
      rw [hval] at hRun
      simp at hRun
    | normal lval =>
      by_cases htb : h.toBoolean lval = false
      · have hval : evalAndAssign h lhsE rhsE s = (.normal lval, s2,
            [.evalL lhsE (.normal lr), .getV (.normal lr) (.normal lval)]) := by
          simp [evalAndAssign, hEv, hGet, htb]
        rw [hval] at hRun
        simp only [Prod.mk.injEq, Completion.normal.injEq] at hRun
        obtain ⟨hlv, hs, htr⟩ := hRun
        subst htr
        right
        refine ⟨?_, lr, by simp [hlv]⟩
        intro e he
        simp at he
        rcases he with rfl | rfl <;> simp [storePayload]
      · rcases hTail : logicalSetTail h lr rhsE s2 with ⟨res, s3, tl⟩
        have hval : evalAndAssign h lhsE rhsE s = (res, s3,
            [Event.evalL lhsE (.normal lr), Event.getV (.normal lr) (.normal lval)] ++ tl) := by
          simp [evalAndAssign, hEv, hGet, htb, hTail]
        rw [hval] at hRun
        simp only [Prod.mk.injEq] at hRun
        obtain ⟨hres, hs, htr⟩ := hRun
        subst htr
        rw [hres] at hTail
        left
        obtain ⟨e, hmem, hpay⟩ := logicalSetTail_normal h lr rhsE s2 s3 v tl hTail
        exact ⟨e, List.mem_append_right _ hmem, hpay⟩

lemma evalOrAssign_normal_char {σ : Type} (h : Host σ) (lhsE rhsE : Node)
    (s s' : σ) (v : JSValue) (tr : List Event)
    (hRun : evalOrAssign h lhsE rhsE s = (.normal v, s', tr)) :
    (∃ e ∈ tr, storePayload e = some (.normal v)) ∨
    ((∀ e ∈ tr, storePayload e = none) ∧
      ∃ lr : Ref, tr = [.evalL lhsE (.normal lr), .getV (.normal lr) (.normal v)]) := by
  rcases hEv : h.evaluate lhsE s with ⟨lref, s1⟩
  cases lref with
  | abrupt a =>
    have hval : evalOrAssign h lhsE rhsE s = (.abrupt a, s1,
        [.evalL lhsE (.abrupt a), .getV (.abrupt a) (.abrupt a)]) := by
      simp [evalOrAssign, hEv]
    rw [hval] at hRun
    simp at hRun
  | normal lr =>
    rcases hGet : h.getValue lr s1 with ⟨lv, s2⟩
    cases lv with
    | abrupt a =>
      have hval : evalOrAssign h lhsE rhsE s = (.abrupt a, s2,
          [.evalL lhsE (.normal lr), .getV (.normal lr) (.abrupt a)]) := by
        simp [evalOrAssign, hEv, hGet]
      rw [hval] at hRun
      simp at hRun
    | normal lval =>
      by_cases htb : h.toBoolean lval = true
      · have hval : evalOrAssign h lhsE rhsE s = (.normal lval, s2,
            [.evalL lhsE (.normal lr), .getV (.normal lr) (.normal lval)]) := by
          simp [evalOrAssign, hEv, hGet, htb]
        rw [hval] at hRun
        simp only [Prod.mk.injEq, Completion.normal.injEq] at hRun
        obtain ⟨hlv, hs, htr⟩ := hRun
        subst htr
        right
        refine ⟨?_, lr, by simp [hlv]⟩
        intro e he
        simp at he
        rcases he with rfl | rfl <;> simp [storePayload]
      · rcases hTail : logicalSetTail h lr rhsE s2 with ⟨res, s3, tl⟩
        have hval : evalOrAssign h lhsE rhsE s = (res, s3,
            [Event.evalL lhsE (.normal lr), Event.getV (.normal lr) (.normal lval)] ++ tl) := by
          simp [evalOrAssign, hEv, hGet, htb, hTail]
        rw [hval] at hRun
        simp only [Prod.mk.injEq] at hRun
        obtain ⟨hres, hs, htr⟩ := hRun
        subst htr
        rw [hres] at hTail
        left
        obtain ⟨e, hmem, hpay⟩ := logicalSetTail_normal h lr rhsE s2 s3 v tl hTail
        exact ⟨e, List.mem_append_right _ hmem, hpay⟩

lemma evalNullishAssign_normal_char {σ : Type} (h : Host σ) (lhsE rhsE : Node)
    (s s' : σ) (v : JSValue) (tr : List Event)
    (hRun : evalNullishAssign h lhsE rhsE s = (.normal v, s', tr)) :
    (∃ e ∈ tr, storePayload e = some (.normal v)) ∨
    ((∀ e ∈ tr, storePayload e = none) ∧
      ∃ lr : Ref, tr = [.evalL lhsE (.normal lr), .getV (.normal lr) (.normal v)]) := by
  rcases hEv : h.evaluate lhsE s with ⟨lref, s1⟩
  cases lref with
  | abrupt a =>
    have hval : evalNullishAssign h lhsE rhsE s = (.abrupt a, s1,
        [.evalL lhsE (.abrupt a), .getV (.abrupt a) (.abrupt a)]) := by
      simp [evalNullishAssign, hEv]
    rw [hval] at hRun
    simp at hRun
  | normal lr =>
    rcases hGet : h.getValue lr s1 with ⟨lv, s2⟩
    cases lv with
    | abrupt a =>
      have hval : evalNullishAssign h lhsE rhsE s = (.abrupt a, s2,
          [.evalL lhsE (.normal lr), .getV (.normal lr) (.abrupt a)]) := by
        simp [evalNullishAssign, hEv, hGet]
      rw [hval] at hRun
      simp at hRun
    | normal lval =>
      by_cases htb : lval ≠ JSValue.undefinedV ∧ lval ≠ JSValue.nullV
      · have hval : evalNullishAssign h lhsE rhsE s = (.normal lval, s2,
            [.evalL lhsE (.normal lr), .getV (.normal lr) (.normal lval)]) := by
          simp only [evalNullishAssign, hEv, hGet, if_pos htb]
        rw [hval] at hRun
        simp only [Prod.mk.injEq, Completion.normal.injEq] at hRun
        obtain ⟨hlv, hs, htr⟩ := hRun
        subst htr
        right
        refine ⟨?_, lr, by simp [hlv]⟩
        intro e he
        simp at he
        rcases he with rfl | rfl <;> simp [storePayload]
      · rcases hTail : logicalSetTail h lr rhsE s2 with ⟨res, s3, tl⟩
        have hval : evalNullishAssign h lhsE rhsE s = (res, s3,
            [Event.evalL lhsE (.normal lr), Event.getV (.normal lr) (.normal lval)] ++ tl) := by
          simp only [evalNullishAssign, hEv, hGet, if_neg htb, hTail]
        rw [hval] at hRun
        simp only [Prod.mk.injEq] at hRun
        obtain ⟨hres, hs, htr⟩ := hRun
        subst htr
        rw [hres] at hTail
        left
        obtain ⟨e, hmem, hpay⟩ := logicalSetTail_normal h lr rhsE s2 s3 v tl hTail
        exact ⟨e, List.mem_append_right _ hmem, hpay⟩

lemma evalCompoundAssign_normal_store {σ : Type} (h : Host σ) (lhsE : Node) (op : String)
    (rhsE : Node) (s s' : σ) (v : JSValue) (tr : List Event)
    (hRun : evalCompoundAssign h lhsE op rhsE s = (.normal v, s', tr)) :
    ∃ e ∈ tr, storePayload e = some (.normal v) := by
  rcases hEv : h.evaluate lhsE s with ⟨lref, s1⟩
  cases lref with
  | abrupt a =>
    have hval : evalCompoundAssign h lhsE op rhsE s = (.abrupt a, s1,
        [.evalL lhsE (.abrupt a), .getV (.abrupt a) (.abrupt a)]) := by
      simp [evalCompoundAssign, hEv]
    rw [hval] at hRun
    simp at hRun
  | normal lr =>
    rcases hGet : h.getValue lr s1 with ⟨lv, s2⟩
    cases lv with
    | abrupt a =>
      have hval : evalCompoundAssign h lhsE op rhsE s = (.abrupt a, s2,
          [.evalL lhsE (.normal lr), .getV (.normal lr) (.abrupt a)]) := by
        simp [evalCompoundAssign, hEv, hGet]
      rw [hval] at hRun
      simp at hRun
    | normal lval =>
      rcases hEvR : h.evaluate rhsE s2 with ⟨rref, s3⟩
      cases rref with
      | abrupt a =>
        have hval : evalCompoundAssign h lhsE op rhsE s = (.abrupt a, s3,
            [.evalL lhsE (.normal lr), .getV (.normal lr) (.normal lval),
             .evalR rhsE (.abrupt a), .getV (.abrupt a) (.abrupt a)]) := by
          simp [evalCompoundAssign, hEv, hGet, hEvR, GetValueStep]
        rw [hval] at hRun
        simp at hRun
      | normal rr =>
        rcases hGetR : h.getValue rr s3 with ⟨rv, s4⟩
        cases rv with
        | abrupt a =>
          have hval : evalCompoundAssign h lhsE op rhsE s = (.abrupt a, s4,
              [.evalL lhsE (.normal lr), .getV (.normal lr) (.normal lval),
               .evalR rhsE (.normal rr), .getV (.normal rr) (.abrupt a)]) := by
            simp [evalCompoundAssign, hEv, hGet, hEvR, hGetR, GetValueStep]
          rw [hval] at hRun
          simp at hRun
        | normal rval =>
          rcases hApp : h.applyOp lval (opTextMap op) rval s4 with ⟨ares, s5⟩
          rcases hPut : h.putValue lr ares s5 with ⟨pres, s6⟩
          cases pres with
          | abrupt a =>
            have hval : evalCompoundAssign h lhsE op rhsE s = (.abrupt a, s6,
                [.evalL lhsE (.normal lr), .getV (.normal lr) (.normal lval),
                 .evalR rhsE (.normal rr), .getV (.normal rr) (.normal rval),
                 .applyB lval (opTextMap op) rval ares, .putV lr ares (.abrupt a)]) := by
              simp [evalCompoundAssign, hEv, hGet, hEvR, hGetR, GetValueStep, hApp, hPut]
            rw [hval] at hRun
            simp at hRun
          | normal u =>
            have hval : evalCompoundAssign h lhsE op rhsE s = (ares, s6,
                [.evalL lhsE (.normal lr), .getV (.normal lr) (.normal lval),
                 .evalR rhsE (.normal rr), .getV (.normal rr) (.normal rval),
                 .applyB lval (opTextMap op) rval ares, .putV lr ares (.normal u)]) := by
              simp [evalCompoundAssign, hEv, hGet, hEvR, hGetR, GetValueStep, hApp, hPut]
            rw [hval] at hRun
            simp only [Prod.mk.injEq] at hRun
            obtain ⟨hres, hs, htr⟩ := hRun
            subst htr
            exact ⟨.putV lr ares (.normal u), by simp, by simp [storePayload, hres]⟩

/-- Claim C10: whenever the evaluator completes normally after performing a
store, the returned value is exactly the payload it handed to the storing
collaborator (`PutValue`, or the destructuring evaluator, which performs
the stores of the destructuring branch); the only normal completions whose
trace holds no store are the logical-assignment short-circuit paths, whose
whole trace is the target evaluation and the dereference returning the
value that is returned. -/
theorem normal_completion_returns_stored_value {σ : Type} (h : Host σ) (lhsE : Node)
    (op : String) (rhsE : Node) (s s' : σ) (v : JSValue) (tr : List Event)
    (hRun : Evaluate_AssignmentExpression h lhsE op rhsE s = (.ok (.normal v), s', tr)) :
    (∃ e ∈ tr, storePayload e = some (.normal v)) ∨
    (op ∈ ["&&=", "||=", "??="] ∧ (∀ e ∈ tr, storePayload e = none) ∧
      ∃ lr : Ref, tr = [.evalL lhsE (.normal lr), .getV (.normal lr) (.normal v)]) := by
  by_cases h1 : op = "="
  · subst h1
    have hd : Evaluate_AssignmentExpression h lhsE "=" rhsE s =
        evalSimpleAssign h lhsE rhsE s := rfl
    rw [hd] at hRun
    exact Or.inl (evalSimpleAssign_normal_store h lhsE rhsE s s' v tr hRun)
  · by_cases h2 : op = "&&="
    · subst h2
      have hd : Evaluate_AssignmentExpression h lhsE "&&=" rhsE s =
          okWrap (evalAndAssign h lhsE rhsE s) := rfl
      rw [hd] at hRun
      have hE := okWrap_eq hRun
      rcases evalAndAssign_normal_char h lhsE rhsE s s' v tr hE with hl | hr
      · exact Or.inl hl
      · exact Or.inr ⟨by simp, hr.1, hr.2⟩
    · by_cases h3 : op = "||="
      · subst h3
        have hd : Evaluate_AssignmentExpression h lhsE "||=" rhsE s =
            okWrap (evalOrAssign h lhsE rhsE s) := rfl
        rw [hd] at hRun
        have hE := okWrap_eq hRun
        rcases evalOrAssign_normal_char h lhsE rhsE s s' v tr hE with hl | hr
        · exact Or.inl hl
        · exact Or.inr ⟨by simp, hr.1, hr.2⟩
      · by_cases h4 : op = "??="
        · subst h4
          have hd : Evaluate_AssignmentExpression h lhsE "??=" rhsE s =
              okWrap (evalNullishAssign h lhsE rhsE s) := rfl
          rw [hd] at hRun
          have hE := okWrap_eq hRun
          rcases evalNullishAssign_normal_char h lhsE rhsE s s' v tr hE with hl | hr
          · exact Or.inl hl
          · exact Or.inr ⟨by simp, hr.1, hr.2⟩
        · rw [compound_dispatch h lhsE op rhsE s h1 h2 h3 h4] at hRun
          have hE := okWrap_eq hRun
          exact Or.inl (evalCompoundAssign_normal_store h lhsE op rhsE s s' v tr hE)

theorem logical_assignment_short_circuit_instance :
    Evaluate_AssignmentExpression unitHost (.IdentifierReference "a") "&&="
        (.IdentifierReference "b") () =
      (.ok (.normal (.boolV false)), (),
       [.evalL (.IdentifierReference "a") (.normal 0),
        .getV (.normal 0) (.normal (.boolV false))]) :=
  (logical_assignment_short_circuit unitHost "&&=" (.IdentifierReference "a")
    (.IdentifierReference "b") () () () 0 (.boolV false) (by simp) rfl rfl).1
    (Or.inl ⟨rfl, rfl⟩)

theorem compound_target_deref_before_source_instance :
    ∃ lref lres t,
      (Evaluate_AssignmentExpression unitHost (.IdentifierReference "a") "+="
          (.IdentifierReference "b") ()).2.2 =
        Event.evalL (.IdentifierReference "a") lref :: Event.getV lref lres :: t ∧
      (∀ n r, Event.evalR n r ∈ t →
        ∃ lval, lres = Completion.normal lval ∧
          ∀ l o rv ar, Event.applyB l o rv ar ∈ t → l = lval) :=
  compound_target_deref_before_source unitHost (.IdentifierReference "a") "+="
    (.IdentifierReference "b") () (by simp [compoundOperatorPairs])

theorem simple_assign_inferred_name_instance :
    Evaluate_AssignmentExpression unitHost (.IdentifierReference "a") "="
        (.Other "AnonFn" 0) () =
      (.ok (.normal (.objV 7)), (),
       [.evalL (.IdentifierReference "a") (.normal 0),
        .namedEvalR (.Other "AnonFn" 0) "a" (.normal (.objV 7)),
        .putV 0 (.normal (.objV 7)) (.normal ())]) :=
  (simple_assign_inferred_name_condition unitHost (.IdentifierReference "a")
    (.Other "AnonFn" 0) () () 0 ⟨rfl, rfl⟩ rfl).1 ⟨rfl, rfl⟩
    (.normal (.objV 7)) () (.normal ()) () rfl rfl

theorem simple_assign_source_once_instance :
    List.countP isSourceEval
      [Event.evalL (.IdentifierReference "a") (.normal 0),
       Event.evalR (.IdentifierReference "b") (.normal 1),
       Event.getV (.normal 1) (.normal (.numV 2)),
       Event.putV 0 (.normal (.numV 2)) (.normal ())] = 1 ∧
    ∃ (lr : Ref) (pres : Completion Unit),
      Event.putV lr (.normal (.numV 2)) pres ∈
        [Event.evalL (.IdentifierReference "a") (.normal 0),
         Event.evalR (.IdentifierReference "b") (.normal 1),
         Event.getV (.normal 1) (.normal (.numV 2)),
         Event.putV 0 (.normal (.numV 2)) (.normal ())] :=
  simple_assign_source_evaluated_once unitHost (.IdentifierReference "a")
    (.IdentifierReference "b") () () (.numV 2) _ ⟨rfl, rfl⟩ rfl

theorem unknown_operator_passed_through_instance :
    Evaluate_AssignmentExpression unitHost (.IdentifierReference "a") "@="
        (.IdentifierReference "b") () =
      okWrap (evalCompoundAssign unitHost (.IdentifierReference "a") "@="
        (.IdentifierReference "b") ()) ∧
    opTextMap "@=" = none ∧
    ∃ (ares : Dyn) (s5 : Unit), unitHost.applyOp (.boolV false) none (.numV 2) () = (ares, s5) ∧
      Event.applyB (.boolV false) none (.numV 2) ares ∈
        (Evaluate_AssignmentExpression unitHost (.IdentifierReference "a") "@="
          (.IdentifierReference "b") ()).2.2 :=
  unknown_operator_passed_through unitHost (.IdentifierReference "a") "@="
    (.IdentifierReference "b") () () () () () 0 (.boolV false) 1 (.numV 2)
    (by decide) (by decide) rfl rfl rfl rfl

theorem normal_completion_returns_stored_value_instance :
    (∃ e ∈ [Event.evalL (.IdentifierReference "a") (.normal 0),
            Event.getV (.normal 0) (.normal (.boolV false))],
       storePayload e = some (.normal (.boolV false))) ∨
    ("&&=" ∈ ["&&=", "||=", "??="] ∧
     (∀ e ∈ [Event.evalL (.IdentifierReference "a") (.normal 0),
             Event.getV (.normal 0) (.normal (.boolV false))],
        storePayload e = none) ∧
     ∃ lr : Ref,
       [Event.evalL (.IdentifierReference "a") (.normal 0),
        Event.getV (.normal 0) (.normal (.boolV false))] =
        [.evalL (.IdentifierReference "a") (.normal lr),
         .getV (.normal lr) (.normal (.boolV false))]) :=
  normal_completion_returns_stored_value unitHost (.IdentifierReference "a") "&&="
    (.IdentifierReference "b") () () (.boolV false) _ rfl

/-- Claim C1: refuted behaviour at a failing input.  When the binary-operator
collaborator yields an abrupt completion for `a += b`, the evaluator does
not return it immediately: it first invokes `PutValue` with that abrupt
completion record as the stored payload (the `putV` trace event), and when
the store itself yields an abrupt completion, that one — not the
operator's — is what propagates. -/
theorem compound_abrupt_operator_passed_to_store :
    Evaluate_AssignmentExpression hostPutThrows (.IdentifierReference "a") "+="
        (.IdentifierReference "b") () =
      (.ok (.abrupt ⟨.throwC, .strV "from PutValue", none⟩), (),
       [.evalL (.IdentifierReference "a") (.normal 0),
        .getV (.normal 0) (.normal (.numV 0)),
        .evalR (.IdentifierReference "b") (.normal 1),
        .getV (.normal 1) (.normal (.numV 1)),
        .applyB (.numV 0) (some "+") (.numV 1)
          (.abrupt ⟨.throwC, .strV "from ApplyStringOrNumericBinaryOperator", none⟩),
        .putV 0 (.abrupt ⟨.throwC, .strV "from ApplyStringOrNumericBinaryOperator", none⟩)
          (.abrupt ⟨.throwC, .strV "from PutValue", none⟩)]) ∧
    (⟨.throwC, .strV "from PutValue", none⟩ : Abrupt) ≠
      ⟨.throwC, .strV "from ApplyStringOrNumericBinaryOperator", none⟩ :=
  ⟨rfl, by decide⟩

end Engine262
